import Mathlib

/-!
Verification of the Promethium experiment tracker
(src/tools/experiment_logger.py) against its specification.

Shallow embedding conventions:
* Timestamps are rationals (seconds).  The Python code stores them as
  ISO-8601 strings and parses them back with fromisoformat; that encode /
  decode pair is an external bijection of the datetime library, so the model
  keeps the numeric value directly.  duration_seconds is computed exactly as
  in the source, as end minus start.
* The JSON-lines log file is a list of lines.  A line is either a record
  (a line that json.loads parses back into the run object json.dumps wrote,
  another external encode / decode bijection), a blank line, or a malformed
  line (non-blank text that json.loads rejects).
* Python dictionaries are insertion-ordered association lists with unique
  keys; dictSet is item assignment (update in place, else append at end),
  dictGet is lookup, dictUpdate is dict.update.
* Python exceptions are values of PyErr; an operation that can raise returns
  the state at the moment of the raise together with the exception.
* uuid generation and the wall clock are externals: the fresh run id and
  every now () value are explicit arguments.
-/

/-- A scalar value that can sit in a parsed JSON record where the logger
expects a number: either a number or a string (files can be produced or
edited by other tools, and get_summary defends with an isinstance check). -/
inductive PyVal
  | num (q : ℚ)
  | str (s : String)
deriving DecidableEq, Repr

/-- One element of a time-series metric: the dict
with keys step, value, timestamp built by log_metrics. -/
structure SeriesEntry where
  step : Int
  value : ℚ
  timestamp : ℚ
deriving DecidableEq, Repr

/-- A value stored under a metric key: a plain numeric scalar, a non-numeric
scalar, or a time series (a Python list). -/
inductive MetricVal
  | num (q : ℚ)
  | str (s : String)
  | series (entries : List SeriesEntry)
deriving DecidableEq, Repr

/-- An artifact record: the dict with keys path, type, logged_at. -/
structure Artifact where
  path : String
  artifactType : String
  loggedAt : ℚ
deriving DecidableEq, Repr

/-- The run record built by start_run and mutated by the log_* operations.
durationSeconds is none until end_run adds the key. -/
structure Run where
  runId : String
  experimentId : String
  pipeline : Option String
  dataset : Option String
  configPath : Option String
  tags : List (String × String)
  parameters : List (String × PyVal)
  metrics : List (String × MetricVal)
  artifacts : List Artifact
  startTime : ℚ
  endTime : Option ℚ
  status : String
  error : Option String
  durationSeconds : Option ℚ
deriving DecidableEq, Repr

/-- One line of the JSON-lines log file, as json.loads sees it. -/
inductive FileLine
  | record (r : Run)
  | blank
  | malformed
deriving DecidableEq, Repr

/-- Tracker state: the experiment id, the log file (none while the file does
not exist) and the in-memory current run slot. -/
structure LoggerState where
  experimentId : String
  log : Option (List FileLine)
  currentRun : Option Run
deriving DecidableEq, Repr

/-- Python exceptions raised by the embedded operations. -/
inductive PyErr
  /-- RuntimeError with the message: No active run. Call start_run() first. -/
  | noActiveRun
  /-- RuntimeError with the message: No active run to end. -/
  | noActiveRunToEnd
  /-- AttributeError: a float or str object has no attribute append. -/
  | attributeError
  /-- json.JSONDecodeError from json.loads on a malformed line. -/
  | jsonDecodeError
  /-- TypeError: comparison not supported between mismatched types. -/
  | typeError
deriving DecidableEq, Repr

/-- Equality of embedded results is decidable, so concrete executions can be
checked by evaluation. -/
instance exceptDecEq {ε α : Type} [DecidableEq ε] [DecidableEq α] :
    DecidableEq (Except ε α)
  | Except.ok a, Except.ok b =>
    match decEq a b with
    | isTrue h => isTrue (by rw [h])
    | isFalse h => isFalse (by intro hc; cases hc; exact h rfl)
  | Except.ok _, Except.error _ => isFalse (by intro h; cases h)
  | Except.error _, Except.ok _ => isFalse (by intro h; cases h)
  | Except.error a, Except.error b =>
    match decEq a b with
    | isTrue h => isTrue (by rw [h])
    | isFalse h => isFalse (by intro hc; cases hc; exact h rfl)

def statusRunning : String := "running"

def statusCompleted : String := "completed"

def statusFailed : String := "failed"

/-- Python dict lookup d.get(k) on an association list. -/
def dictGet {α : Type} : List (String × α) → String → Option α
  | [], _ => none
  | p :: rest, k => if p.1 = k then some p.2 else dictGet rest k

/-- Python dict item assignment d[k] = v: replaces in place, else appends. -/
def dictSet {α : Type} : List (String × α) → String → α → List (String × α)
  | [], k, v => [(k, v)]
  | p :: rest, k, v => if p.1 = k then (k, v) :: rest else p :: dictSet rest k v

/-- Python d.update(kvs): item assignment for each pair in order. -/
def dictUpdate {α : Type} (d : List (String × α)) (kvs : List (String × α)) :
    List (String × α) :=
  kvs.foldl (fun acc p => dictSet acc p.1 p.2) d

/-- ExperimentLogger.start_run: builds a fresh running record and installs it
in the current-run slot.  The source performs no check on the slot: an
unfinished active run is silently overwritten and never persisted. -/
def start_run (st : LoggerState) (newRunId : String) (now : ℚ)
    (pipeline dataset configPath : Option String)
    (tags : List (String × String)) : LoggerState × String :=
  let r : Run :=
    { runId := newRunId
      experimentId := st.experimentId
      pipeline := pipeline
      dataset := dataset
      configPath := configPath
      tags := tags
      parameters := []
      metrics := []
      artifacts := []
      startTime := now
      endTime := none
      status := statusRunning
      error := none
      durationSeconds := none }
  ({ st with currentRun := some r }, newRunId)

/-- ExperimentLogger.log_params: merges the pairs into the parameters dict of
the active run; raises when no run is active. -/
def log_params (st : LoggerState) (ps : List (String × PyVal)) :
    LoggerState × Option PyErr :=
  match st.currentRun with
  | none => (st, some PyErr.noActiveRun)
  | some r =>
    ({ st with currentRun := some { r with parameters := dictUpdate r.parameters ps } },
      none)

/-- The body of the time-series branch of log_metrics for one key: if the key
is absent a fresh empty list is installed first, then append is called on the
stored value.  When the stored value is a scalar, append raises
AttributeError exactly as in Python. -/
def appendSeriesEntry (m : List (String × MetricVal)) (k : String)
    (e : SeriesEntry) : Except PyErr (List (String × MetricVal)) :=
  match dictGet m k with
  | none => Except.ok (dictSet m k (MetricVal.series [e]))
  | some (MetricVal.series l) => Except.ok (dictSet m k (MetricVal.series (l ++ [e])))
  | some (MetricVal.num _) => Except.error PyErr.attributeError
  | some (MetricVal.str _) => Except.error PyErr.attributeError

/-- The for-loop of the time-series branch of log_metrics: keys processed in
order; on an exception the mutations already made are kept, as Python
in-place mutation does. -/
def seriesLoop (m : List (String × MetricVal)) (kvs : List (String × ℚ))
    (s : Int) (now : ℚ) : List (String × MetricVal) × Option PyErr :=
  match kvs with
  | [] => (m, none)
  | (k, v) :: rest =>
    match appendSeriesEntry m k ⟨s, v, now⟩ with
    | Except.ok m2 => seriesLoop m2 rest s now
    | Except.error e => (m, some e)

/-- ExperimentLogger.log_metrics: with a step, appends one entry per key to
that key series; without a step, dict.update of the scalar values. -/
def log_metrics (st : LoggerState) (kvs : List (String × ℚ))
    (step : Option Int) (now : ℚ) : LoggerState × Option PyErr :=
  match st.currentRun with
  | none => (st, some PyErr.noActiveRun)
  | some r =>
    match step with
    | some s =>
      let res := seriesLoop r.metrics kvs s now
      ({ st with currentRun := some { r with metrics := res.1 } }, res.2)
    | none =>
      let m2 := dictUpdate r.metrics (kvs.map (fun p => (p.1, MetricVal.num p.2)))
      ({ st with currentRun := some { r with metrics := m2 } }, none)

/-- ExperimentLogger.log_artifact: appends an artifact record. -/
def log_artifact (st : LoggerState) (path artifactType : String) (now : ℚ) :
    LoggerState × Option PyErr :=
  match st.currentRun with
  | none => (st, some PyErr.noActiveRun)
  | some r =>
    let arts := r.artifacts ++ [⟨path, artifactType, now⟩]
    ({ st with currentRun := some { r with artifacts := arts } }, none)

/-- The record end_run builds from the active run: end time, status, error
and the derived duration, computed as end minus start. -/
def finalizeRun (r : Run) (status : String) (err : Option String) (now : ℚ) : Run :=
  { r with
      endTime := some now
      status := status
      error := err
      durationSeconds := some (now - r.startTime) }

/-- ExperimentLogger.end_run: finalizes the active run, appends one serialized
record line to the log file (creating the file when absent, as append-mode
open does), and clears the current-run slot. -/
def end_run (st : LoggerState) (status : String) (err : Option String)
    (now : ℚ) : LoggerState × Option PyErr :=
  match st.currentRun with
  | none => (st, some PyErr.noActiveRunToEnd)
  | some r =>
    let r2 := finalizeRun r status err now
    ({ st with
        log := some ((st.log.getD []) ++ [FileLine.record r2])
        currentRun := none },
      none)

/-- The line loop of get_runs: blank lines are skipped, a malformed line
raises json.JSONDecodeError (so nothing is returned), a record line is
parsed and collected in file order. -/
def parseLines : List FileLine → Except PyErr (List Run)
  | [] => Except.ok []
  | FileLine.blank :: rest => parseLines rest
  | FileLine.malformed :: _ => Except.error PyErr.jsonDecodeError
  | FileLine.record r :: rest =>
    match parseLines rest with
    | Except.ok rs => Except.ok (r :: rs)
    | Except.error e => Except.error e

/-- ExperimentLogger.get_runs: empty result when the file does not exist,
otherwise the parsed lines. -/
def get_runs (st : LoggerState) : Except PyErr (List Run) :=
  match st.log with
  | none => Except.ok []
  | some file => parseLines file

/-- The extended number line used by get_best_run: the Python floats together
with float minus-infinity (bottom) and float plus-infinity (top). -/
abbrev XRat : Type := WithBot (WithTop ℚ)

/-- A finite value on the extended number line. -/
def xrFin (q : ℚ) : XRat := ((q : WithTop ℚ) : XRat)

/-- float minus-infinity. -/
def xrNegInf : XRat := ⊥

/-- float plus-infinity. -/
def xrPosInf : XRat := ((⊤ : WithTop ℚ) : XRat)

/-- The value the key function of get_best_run returns for one run: a number
(possibly an infinity substituted for a missing value) or, when the stored
scalar is a string, that string. -/
inductive KeyVal
  | num (x : XRat)
  | strv (s : String)
deriving DecidableEq

/-- The inner get_metric_value of get_best_run: a time series contributes its
last recorded value (an empty series counts as missing), a missing value
becomes minus-infinity when maximizing and plus-infinity when minimizing. -/
def getMetricValue (metric : String) (maximize : Bool) (r : Run) : KeyVal :=
  match dictGet r.metrics metric with
  | none => KeyVal.num (if maximize then xrNegInf else xrPosInf)
  | some (MetricVal.num q) => KeyVal.num (xrFin q)
  | some (MetricVal.str s) => KeyVal.strv s
  | some (MetricVal.series l) =>
    match l.getLast? with
    | some e => KeyVal.num (xrFin e.value)
    | none => KeyVal.num (if maximize then xrNegInf else xrPosInf)

/-- The Python greater-than used inside max: numbers compare numerically,
strings lexicographically, and a mixed comparison raises TypeError. -/
def keyGt : KeyVal → KeyVal → Except PyErr Bool
  | KeyVal.num a, KeyVal.num b => Except.ok (decide (b < a))
  | KeyVal.strv a, KeyVal.strv b => Except.ok (decide (b < a))
  | _, _ => Except.error PyErr.typeError

/-- The Python less-than used inside min. -/
def keyLt : KeyVal → KeyVal → Except PyErr Bool
  | KeyVal.num a, KeyVal.num b => Except.ok (decide (a < b))
  | KeyVal.strv a, KeyVal.strv b => Except.ok (decide (a < b))
  | _, _ => Except.error PyErr.typeError

/-- The loop of the Python builtin max with a key function: the current best
is replaced exactly when the key of the new element is strictly greater, so
ties keep the earlier element. -/
def maxByLoop (f : Run → KeyVal) (best : Run) : List Run → Except PyErr Run
  | [] => Except.ok best
  | r :: rest =>
    match keyGt (f r) (f best) with
    | Except.error e => Except.error e
    | Except.ok g => maxByLoop f (if g then r else best) rest

/-- The loop of the Python builtin min with a key function. -/
def minByLoop (f : Run → KeyVal) (best : Run) : List Run → Except PyErr Run
  | [] => Except.ok best
  | r :: rest =>
    match keyLt (f r) (f best) with
    | Except.error e => Except.error e
    | Except.ok g => minByLoop f (if g then r else best) rest

/-- ExperimentLogger.get_best_run: none on an empty run list, otherwise the
builtin max (or min) of the runs keyed by get_metric_value. -/
def get_best_run (st : LoggerState) (metric : String) (maximize : Bool) :
    Except PyErr (Option Run) :=
  match get_runs st with
  | Except.error e => Except.error e
  | Except.ok [] => Except.ok none
  | Except.ok (x :: xs) =>
    if maximize then
      match maxByLoop (getMetricValue metric maximize) x xs with
      | Except.ok m => Except.ok (some m)
      | Except.error e => Except.error e
    else
      match minByLoop (getMetricValue metric maximize) x xs with
      | Except.ok m => Except.ok (some m)
      | Except.error e => Except.error e

/-- The metric_values accumulation step of get_summary: append the value to
the list stored under the key, first installing an empty list when the key is
absent. -/
def pushValue : List (String × List ℚ) → String → ℚ → List (String × List ℚ)
  | [], k, q => [(k, [q])]
  | p :: rest, k, q =>
    if p.1 = k then (p.1, p.2 ++ [q]) :: rest else p :: pushValue rest k q

/-- The metric_values dict of get_summary: for each completed run in order,
for each metric entry in order, plain numeric values are collected per key;
time series and non-numeric scalars are skipped by the isinstance check. -/
def collectNumeric (completedRuns : List Run) : List (String × List ℚ) :=
  completedRuns.foldl
    (fun acc r =>
      r.metrics.foldl
        (fun acc2 kv =>
          match kv.2 with
          | MetricVal.num q => pushValue acc2 kv.1 q
          | _ => acc2)
        acc)
    []

/-- The per-key statistics record of get_summary. -/
structure MetricStats where
  mean : ℚ
  min : ℚ
  max : ℚ
  count : Nat
deriving DecidableEq, Repr

/-- Python sum over a list of numbers. -/
def qSum (l : List ℚ) : ℚ := l.foldl (· + ·) 0

/-- Python min over a nonempty list, given as head and tail. -/
def qListMin (x : ℚ) (xs : List ℚ) : ℚ := xs.foldl min x

/-- Python max over a nonempty list, given as head and tail. -/
def qListMax (x : ℚ) (xs : List ℚ) : ℚ := xs.foldl max x

/-- The statistics body of get_summary for one key, guarded by the
truthiness check on the value list. -/
def computeStats : List ℚ → Option MetricStats
  | [] => none
  | x :: xs =>
    some
      { mean := qSum (x :: xs) / ((x :: xs).length : ℚ)
        min := qListMin x xs
        max := qListMax x xs
        count := (x :: xs).length }

/-- The metric_stats dict of get_summary: one entry per collected key with a
nonempty value list, in collection order. -/
def metricStatsOf (mv : List (String × List ℚ)) : List (String × MetricStats) :=
  mv.filterMap (fun p => (computeStats p.2).map (fun s => (p.1, s)))

/-- The summary record of get_summary.  In the empty-log branch the source
returns a dict without the metric_summary, first_run and last_run keys;
those keys are modelled as none there. -/
structure Summary where
  experimentId : String
  totalRuns : Nat
  completed : Nat
  failed : Nat
  metricSummary : Option (List (String × MetricStats))
  firstRun : Option ℚ
  lastRun : Option ℚ
deriving DecidableEq, Repr

/-- ExperimentLogger.get_summary. -/
def get_summary (st : LoggerState) : Except PyErr Summary :=
  match get_runs st with
  | Except.error e => Except.error e
  | Except.ok runs =>
    match runs with
    | [] =>
      Except.ok
        { experimentId := st.experimentId
          totalRuns := 0
          completed := 0
          failed := 0
          metricSummary := none
          firstRun := none
          lastRun := none }
    | _ :: _ =>
      let completedRuns := runs.filter (fun r => r.status = statusCompleted)
      let failedRuns := runs.filter (fun r => r.status = statusFailed)
      Except.ok
        { experimentId := st.experimentId
          totalRuns := runs.length
          completed := completedRuns.length
          failed := failedRuns.length
          metricSummary := some (metricStatsOf (collectNumeric completedRuns))
          firstRun := runs.head?.map Run.startTime
          lastRun := runs.getLast?.map Run.startTime }

/-- How the with-statement around ExperimentRun exits. -/
inductive ScopedOutcome
  /-- The body and the exit handler both completed. -/
  | ok
  /-- The body raised and the exit handler re-raised the original error. -/
  | raised (msg : String)
  /-- end_run itself raised inside the exit handler. -/
  | internal (e : PyErr)
deriving DecidableEq, Repr

/-- A with-statement over ExperimentRun: the enter hook starts a run, the
body transforms the state and either returns normally or raises an error
carrying a message, and the exit hook ends the run as completed or as failed
with the message of the raised error; returning False it re-raises the
original error unchanged. -/
def experimentRunScope (st : LoggerState) (newRunId : String) (startNow : ℚ)
    (pipeline dataset configPath : Option String)
    (tags : List (String × String))
    (body : LoggerState → LoggerState × Option String) (endNow : ℚ) :
    LoggerState × ScopedOutcome :=
  let entered := start_run st newRunId startNow pipeline dataset configPath tags
  let ran := body entered.1
  match ran.2 with
  | some msg =>
    let ended := end_run ran.1 statusFailed (some msg) endNow
    match ended.2 with
    | some e => (ended.1, ScopedOutcome.internal e)
    | none => (ended.1, ScopedOutcome.raised msg)
  | none =>
    let ended := end_run ran.1 statusCompleted none endNow
    match ended.2 with
    | some e => (ended.1, ScopedOutcome.internal e)
    | none => (ended.1, ScopedOutcome.ok)

/-- True when the key function yields a number (finite or infinite), so the
comparisons inside max and min cannot raise. -/
def isNumKey : KeyVal → Bool
  | KeyVal.num _ => true
  | KeyVal.strv _ => false

/-- The numeric value of the key function, with an arbitrary default on the
string case; meaningful only where isNumKey holds. -/
def keyNumOf (metric : String) (maximize : Bool) (r : Run) : XRat :=
  match getMetricValue metric maximize r with
  | KeyVal.num x => x
  | KeyVal.strv _ => ⊥

/-- A run has a value for the metric: a numeric scalar or a nonempty series. -/
def hasMetricValue (metric : String) (r : Run) : Bool :=
  match dictGet r.metrics metric with
  | some (MetricVal.num _) => true
  | some (MetricVal.series l) => !l.isEmpty
  | _ => false

/-- The run records stored in a file, in file order, ignoring blank and
malformed lines. -/
def recordsOf (file : List FileLine) : List Run :=
  file.filterMap (fun l =>
    match l with
    | FileLine.record r => some r
    | _ => none)

/-- Pure form of the max loop, usable once all keys are known numeric. -/
def pickMax (g : Run → XRat) (best : Run) : List Run → Run
  | [] => best
  | r :: rest => pickMax g (if g best < g r then r else best) rest

/-- Pure form of the min loop. -/
def pickMin (g : Run → XRat) (best : Run) : List Run → Run
  | [] => best
  | r :: rest => pickMin g (if g r < g best then r else best) rest

/-- The plain numeric values stored in one run under one key (zero or one of
them, as dict keys are unique in records the logger writes; stated over the
association list directly). -/
def numericValsOf (r : Run) (k : String) : List ℚ :=
  r.metrics.filterMap (fun kv =>
    if kv.1 = k then
      match kv.2 with
      | MetricVal.num q => some q
      | _ => none
    else none)

/-- Specification-side description of the inputs to the per-key statistics of
get_summary: the plain numeric values under the key across the runs with
completed status, in scan order. -/
def specVals (runs : List Run) (k : String) : List ℚ :=
  (runs.filter (fun r => r.status = statusCompleted)).flatMap
    (fun r => numericValsOf r k)

/-- Specification-side statistics of a nonempty value list. -/
def statsSpec (x : ℚ) (xs : List ℚ) : MetricStats :=
  { mean := qSum (x :: xs) / ((x :: xs).length : ℚ)
    min := qListMin x xs
    max := qListMax x xs
    count := (x :: xs).length }

/-- One call to log_metrics for a single key, as used when replaying a call
sequence: the value, the optional step and the clock reading. -/
structure MetricCall where
  value : ℚ
  step : Option Int
  time : ℚ
deriving DecidableEq, Repr

/-- Replay a sequence of single-key log_metrics calls, stopping at the first
raised exception. -/
def replayCalls (k : String) : LoggerState → List MetricCall → LoggerState × Option PyErr
  | st, [] => (st, none)
  | st, c :: rest =>
    match log_metrics st [(k, c.value)] c.step c.time with
    | (st2, none) => replayCalls k st2 rest
    | (st2, some e) => (st2, some e)

/-- A call list made of the step-mode calls followed by the scalar-mode
calls, the shape under which log_metrics never raises for the key. -/
def modeCalls (ws : List (Int × ℚ × ℚ)) (ns : List (ℚ × ℚ)) : List MetricCall :=
  ws.map (fun t => ⟨t.2.1, some t.1, t.2.2⟩) ++ ns.map (fun t => ⟨t.1, none, t.2⟩)

/-- The series the step-mode calls build, in call order. -/
def seriesOf (s0 : List SeriesEntry) (ws : List (Int × ℚ × ℚ)) : List SeriesEntry :=
  s0 ++ ws.map (fun t => ⟨t.1, t.2.1, t.2.2⟩)

def cExp : String := "exp1"

def cRidA : String := "runa"

def cRidB : String := "runb"

def cSnr : String := "snr"

def cK : String := "loss"

def cMsg : String := "boom"

/-- A freshly started run, as start_run builds it. -/
def freshRun (rid : String) (t : ℚ) : Run :=
  { runId := rid
    experimentId := cExp
    pipeline := none
    dataset := none
    configPath := none
    tags := []
    parameters := []
    metrics := []
    artifacts := []
    startTime := t
    endTime := none
    status := statusRunning
    error := none
    durationSeconds := none }

/-- A persisted completed run with the given metrics dict. -/
def doneRun (rid : String) (ms : List (String × MetricVal)) : Run :=
  { freshRun rid 0 with
      metrics := ms
      endTime := some 1
      status := statusCompleted
      durationSeconds := some 1 }

/-- The state after replacing the metrics dict of the active run. -/
def setRunMetrics (st : LoggerState) (r : Run) (m : List (String × MetricVal)) :
    LoggerState :=
  { st with currentRun := some { r with metrics := m } }

/-- A tracker whose log file does not exist and with no active run. -/
def cEmptySt : LoggerState :=
  { experimentId := cExp, log := none, currentRun := none }

def c1St1 : LoggerState := { cEmptySt with currentRun := some (freshRun cRidA 0) }

def c1St2 : LoggerState := { cEmptySt with currentRun := some (freshRun cRidB 1) }

def c2Run : Run := doneRun "c2a" []

def c2St : LoggerState := { cEmptySt with log := some [FileLine.record c2Run] }

def c6Run : Run := { freshRun "c6r" 0 with metrics := [(cK, MetricVal.num 1)] }

def c6St : LoggerState := { cEmptySt with currentRun := some c6Run }

def c9Run : Run :=
  { freshRun "c9r" 0 with metrics := [(cK, MetricVal.series [⟨1, 5, 2⟩])] }

def c9St : LoggerState := { cEmptySt with currentRun := some c9Run }

def c10Run : Run := doneRun "c10a" [(cSnr, MetricVal.num 4)]

def c10BadFile : List FileLine :=
  [FileLine.record c10Run, FileLine.blank, FileLine.malformed]

def c10GoodFile : List FileLine :=
  [FileLine.blank, FileLine.record c10Run, FileLine.blank]

def c10StBad : LoggerState := { cEmptySt with log := some c10BadFile }

def c10StGood : LoggerState := { cEmptySt with log := some c10GoodFile }

/-- The state a run scope leaves behind: the finalized record appended to the
previous file content, and the current-run slot cleared. -/
def finishedState (st2 : LoggerState) (oldLog : Option (List FileLine)) (r2 : Run) :
    LoggerState :=
  { st2 with log := some ((oldLog.getD []) ++ [FileLine.record r2]), currentRun := none }

def c4St : LoggerState := { cEmptySt with currentRun := some (freshRun cRidA 0) }

/-- A scope body that raises an error with message cMsg. -/
def cFailBody : LoggerState → LoggerState × Option String := fun s => (s, some cMsg)

/-- A scope body that completes normally. -/
def cOkBody : LoggerState → LoggerState × Option String := fun s => (s, none)

def c6WRun : Run := freshRun "c6w" 0

def c6WSt : LoggerState := { cEmptySt with currentRun := some c6WRun }

def c5RunA : Run := doneRun "c5a" [(cSnr, MetricVal.num 10)]

def c5RunB : Run := doneRun "c5b" [(cSnr, MetricVal.num 25)]

def c5RunC : Run := doneRun "c5c" [(cSnr, MetricVal.num 18)]

def c5St : LoggerState :=
  { cEmptySt with
      log := some [FileLine.record c5RunA, FileLine.record c5RunB, FileLine.record c5RunC] }

def cMse : String := "mse"

def c7Run1 : Run := doneRun "c7a" [(cMse, MetricVal.num 1)]

def c7Run2 : Run := doneRun "c7b" [(cMse, MetricVal.num 3)]

def c7Run3 : Run := { doneRun "c7c" [(cMse, MetricVal.num 100)] with status := statusFailed }

def c7St : LoggerState :=
  { cEmptySt with
      log := some [FileLine.record c7Run1, FileLine.record c7Run2, FileLine.record c7Run3] }

theorem dictGet_dictSet_self {α : Type} (d : List (String × α)) (k : String) (v : α) :
    dictGet (dictSet d k v) k = some v := by
  induction d with
  | nil => simp [dictSet, dictGet]
  | cons p rest ih =>
    by_cases h : p.1 = k
    · simp [dictSet, dictGet, h]
    · simp [dictSet, dictGet, h, ih]

theorem parseLines_append_record (file : List FileLine) (rs : List Run) (r2 : Run)
    (h : parseLines file = Except.ok rs) :
    parseLines (file ++ [FileLine.record r2]) = Except.ok (rs ++ [r2]) := by
  induction file generalizing rs with
  | nil =>
    simp [parseLines] at h
    subst h
    simp [parseLines]
  | cons l rest ih =>
    cases l with
    | record r =>
      simp only [List.cons_append, parseLines] at h ⊢
      cases hp : parseLines rest with
      | ok rs2 =>
        rw [hp] at h
        simp only [Except.ok.injEq] at h
        subst h
        have h3 := ih rs2 hp
        simp only [List.append_eq] at h3 ⊢
        rw [h3]
        simp
      | error e =>
        rw [hp] at h
        simp at h
    | blank =>
      simp only [List.cons_append, parseLines] at h ⊢
      exact ih rs h
    | malformed =>
      simp [parseLines] at h

theorem parseLines_of_not_malformed (file : List FileLine)
    (h : FileLine.malformed ∉ file) :
    parseLines file = Except.ok (recordsOf file) := by
  induction file with
  | nil => simp [parseLines, recordsOf]
  | cons l rest ih =>
    have h2 : FileLine.malformed ∉ rest := fun hm => h (List.mem_cons_of_mem _ hm)
    cases l with
    | record r => simp [parseLines, recordsOf, List.filterMap_cons, ih h2]
    | blank => simp [parseLines, recordsOf, List.filterMap_cons, ih h2]
    | malformed => exact absurd (List.mem_cons_self _ _) h

theorem parseLines_of_malformed (file : List FileLine)
    (h : FileLine.malformed ∈ file) :
    parseLines file = Except.error PyErr.jsonDecodeError := by
  induction file with
  | nil => cases h
  | cons l rest ih =>
    cases l with
    | record r =>
      have h2 : FileLine.malformed ∈ rest := by
        rcases List.mem_cons.1 h with h1 | h1
        · cases h1
        · exact h1
      simp [parseLines, ih h2]
    | blank =>
      have h2 : FileLine.malformed ∈ rest := by
        rcases List.mem_cons.1 h with h1 | h1
        · cases h1
        · exact h1
      simp [parseLines, ih h2]
    | malformed => simp [parseLines]

/-- Claim C1.  The claim states that start_run fails with InvalidStateError
when a run is already active and does not discard the active run.  The code
has no such check: called with the run for cRidA still active, start_run
returns normally with the new id, the new run occupies the slot, and the
log file still does not exist, so the unfinished first run is silently lost
without ever being persisted.  The specification itself flags this source
behaviour as a likely bug, so the claim records intent and the code is in
the wrong. -/
theorem start_run_active_run_silently_discarded :
    c1St1.currentRun = some (freshRun cRidA 0) ∧
    start_run c1St1 cRidB 1 none none none [] = (c1St2, cRidB) ∧
    c1St2.currentRun = some (freshRun cRidB 1) ∧
    c1St2.log = none ∧
    get_runs c1St2 = Except.ok [] := by
  decide

/-- Claim C8: with no active run, log_params, log_metrics, log_artifact and
end_run all raise the no-active-run RuntimeError (the NoActiveRunError of
the specification) and return the tracker state, including the log file,
unchanged. -/
theorem no_active_run_all_ops_error (st : LoggerState)
    (h : st.currentRun = none) (ps : List (String × PyVal))
    (ms : List (String × ℚ)) (step : Option Int) (now : ℚ)
    (path artifactType status : String) (err : Option String) :
    log_params st ps = (st, some PyErr.noActiveRun) ∧
    log_metrics st ms step now = (st, some PyErr.noActiveRun) ∧
    log_artifact st path artifactType now = (st, some PyErr.noActiveRun) ∧
    end_run st status err now = (st, some PyErr.noActiveRunToEnd) := by
  refine ⟨?_, ?_, ?_, ?_⟩ <;> simp [log_params, log_metrics, log_artifact, end_run, h]

/-- Witness for C8 at a concrete tracker with no active run. -/
theorem no_active_run_all_ops_error_witness :
    log_params cEmptySt [] = (cEmptySt, some PyErr.noActiveRun) ∧
    log_metrics cEmptySt [(cK, 1)] none 0 = (cEmptySt, some PyErr.noActiveRun) ∧
    log_artifact cEmptySt cK cK 0 = (cEmptySt, some PyErr.noActiveRun) ∧
    end_run cEmptySt statusCompleted none 0 = (cEmptySt, some PyErr.noActiveRunToEnd) :=
  no_active_run_all_ops_error cEmptySt rfl [] [(cK, 1)] none 0 cK cK statusCompleted none

/-- Claim C9: when a key holds a time series and log_metrics is called for
that key without a step, the dict update replaces the whole series by the
scalar value, so every previously logged series entry for the key is dropped
from the run record. -/
theorem log_metrics_scalar_replaces_series (st : LoggerState) (r : Run)
    (k : String) (l : List SeriesEntry) (v now : ℚ)
    (hact : st.currentRun = some r)
    (hser : dictGet r.metrics k = some (MetricVal.series l)) :
    log_metrics st [(k, v)] none now =
      (setRunMetrics st r (dictSet r.metrics k (MetricVal.num v)), none) ∧
    dictGet (dictSet r.metrics k (MetricVal.num v)) k = some (MetricVal.num v) := by
  constructor
  · simp [log_metrics, hact, dictUpdate, setRunMetrics]
  · exact dictGet_dictSet_self r.metrics k (MetricVal.num v)

/-- Witness for C9: a concrete run whose loss series has one entry; the
step-free call leaves a scalar and the series is gone. -/
theorem log_metrics_scalar_replaces_series_witness :
    log_metrics c9St [(cK, 7)] none 9 =
      (setRunMetrics c9St c9Run (dictSet c9Run.metrics cK (MetricVal.num 7)), none) ∧
    dictGet (dictSet c9Run.metrics cK (MetricVal.num 7)) cK = some (MetricVal.num 7) :=
  log_metrics_scalar_replaces_series c9St c9Run cK [⟨1, 5, 2⟩] 7 9 (by decide) (by decide)

/-- Claim C10: get_runs returns the empty sequence when the file is missing;
with the file present it skips blank lines and returns the records in file
order, unless some non-blank line fails to parse, in which case the JSON
decode error propagates and no runs are returned at all (hard-fail). -/
theorem get_runs_parse_policy (st : LoggerState) (file : List FileLine) :
    (st.log = none → get_runs st = Except.ok []) ∧
    (st.log = some file → FileLine.malformed ∈ file →
      get_runs st = Except.error PyErr.jsonDecodeError) ∧
    (st.log = some file → FileLine.malformed ∉ file →
      get_runs st = Except.ok (recordsOf file)) := by
  refine ⟨?_, ?_, ?_⟩
  · intro h; simp [get_runs, h]
  · intro h hm; simp [get_runs, h, parseLines_of_malformed file hm]
  · intro h hm; simp [get_runs, h, parseLines_of_not_malformed file hm]

/-- Witness for C10: a missing file yields no runs; a file with a malformed
line yields the parse error; a well-formed file with blank lines yields its
records in order. -/
theorem get_runs_parse_policy_witness :
    get_runs cEmptySt = Except.ok [] ∧
    get_runs c10StBad = Except.error PyErr.jsonDecodeError ∧
    get_runs c10StGood = Except.ok [c10Run] := by
  refine ⟨(get_runs_parse_policy cEmptySt []).1 rfl,
    (get_runs_parse_policy c10StBad c10BadFile).2.1 rfl (by decide),
    Eq.trans ((get_runs_parse_policy c10StGood c10GoodFile).2.2 rfl (by decide)) (by decide)⟩

theorem maxByLoop_const (f : Run → KeyVal) (c : XRat) :
    ∀ (l : List Run) (x : Run), f x = KeyVal.num c →
      (∀ r ∈ l, f r = KeyVal.num c) → maxByLoop f x l = Except.ok x := by
  intro l
  induction l with
  | nil => intro x _ _; rfl
  | cons r rest ih =>
    intro x hx hl
    have hr : f r = KeyVal.num c := hl r (List.mem_cons_self _ _)
    have hg : keyGt (f r) (f x) = Except.ok false := by
      rw [hr, hx]; simp [keyGt]
    simp only [maxByLoop, hg]
    simpa using ih x hx fun r2 h2 => hl r2 (List.mem_cons_of_mem _ h2)

theorem minByLoop_const (f : Run → KeyVal) (c : XRat) :
    ∀ (l : List Run) (x : Run), f x = KeyVal.num c →
      (∀ r ∈ l, f r = KeyVal.num c) → minByLoop f x l = Except.ok x := by
  intro l
  induction l with
  | nil => intro x _ _; rfl
  | cons r rest ih =>
    intro x hx hl
    have hr : f r = KeyVal.num c := hl r (List.mem_cons_self _ _)
    have hg : keyLt (f r) (f x) = Except.ok false := by
      rw [hr, hx]; simp [keyLt]
    simp only [minByLoop, hg]
    simpa using ih x hx fun r2 h2 => hl r2 (List.mem_cons_of_mem _ h2)

/-- Claim C2 counterexample: a non-empty log with one run that has no value
for the requested metric.  The claim says get_best_run returns none here;
instead it returns that run (all runs tie at the substituted infinity and
max keeps the first). -/
theorem get_best_run_missing_metric_counterexample :
    get_runs c2St = Except.ok [c2Run] ∧
    dictGet c2Run.metrics cSnr = none ∧
    get_best_run c2St cSnr true = Except.ok (some c2Run) ∧
    get_best_run c2St cSnr true ≠ Except.ok none := by
  decide

/-- Claim C2 as amended: get_best_run returns none exactly when the parsed
log is empty; when the log is non-empty but no run has a value for the
metric, it does not return none but returns the first run in file order
(every run carries the same substituted infinity, and the stable scan keeps
the first). -/
theorem get_best_run_none_only_on_empty (st : LoggerState) (metric : String)
    (maximize : Bool) (runs : List Run) (hr : get_runs st = Except.ok runs) :
    (runs = [] → get_best_run st metric maximize = Except.ok none) ∧
    (∀ x xs, runs = x :: xs → (∀ r ∈ runs, dictGet r.metrics metric = none) →
      get_best_run st metric maximize = Except.ok (some x)) := by
  constructor
  · intro h
    subst h
    simp [get_best_run, hr]
  · intro x xs hxx hall
    subst hxx
    have hkey : ∀ r ∈ x :: xs,
        getMetricValue metric maximize r =
          KeyVal.num (if maximize then xrNegInf else xrPosInf) := by
      intro r hrm
      simp [getMetricValue, hall r hrm]
    cases maximize with
    | true =>
      have hloop := maxByLoop_const (getMetricValue metric true) xrNegInf xs x
        (by simpa using hkey x (List.mem_cons_self _ _))
        (fun r2 h2 => by simpa using hkey r2 (List.mem_cons_of_mem _ h2))
      simp [get_best_run, hr, hloop]
    | false =>
      have hloop := minByLoop_const (getMetricValue metric false) xrPosInf xs x
        (by simpa using hkey x (List.mem_cons_self _ _))
        (fun r2 h2 => by simpa using hkey r2 (List.mem_cons_of_mem _ h2))
      simp [get_best_run, hr, hloop]

/-- Witness for the amended C2: none on the empty log, and the first (only)
run of a non-empty log where no run has the metric. -/
theorem get_best_run_none_only_on_empty_witness :
    get_best_run cEmptySt cSnr true = Except.ok none ∧
    get_best_run c2St cSnr true = Except.ok (some c2Run) :=
  ⟨(get_best_run_none_only_on_empty cEmptySt cSnr true [] (by decide)).1 rfl,
   (get_best_run_none_only_on_empty c2St cSnr true [c2Run] (by decide)).2
     c2Run [] rfl (by decide)⟩

/-- Claim C4: ending the active run raises nothing, and reading the log back
afterwards yields a sequence whose last element is exactly the finalized run
record end_run wrote (the serialize-then-parse pair being the identity on
record lines), with end_time set to the end clock and duration_seconds equal
to end_time minus start_time in seconds. -/
theorem end_run_roundtrip (st : LoggerState) (r : Run) (status : String)
    (err : Option String) (now : ℚ) (prior : List Run)
    (hact : st.currentRun = some r)
    (hfile : parseLines (st.log.getD []) = Except.ok prior) :
    (end_run st status err now).2 = none ∧
    get_runs (end_run st status err now).1 =
      Except.ok (prior ++ [finalizeRun r status err now]) ∧
    (prior ++ [finalizeRun r status err now]).getLast? =
      some (finalizeRun r status err now) ∧
    (finalizeRun r status err now).endTime = some now ∧
    (finalizeRun r status err now).durationSeconds = some (now - r.startTime) := by
  refine ⟨?_, ?_, ?_, rfl, rfl⟩
  · simp [end_run, hact]
  · simp only [end_run, hact, get_runs]
    exact parseLines_append_record _ prior _ hfile
  · simp

/-- Witness for C4: ending the only active run of a fresh tracker. -/
theorem end_run_roundtrip_witness :
    (end_run c4St statusCompleted none 1).2 = none ∧
    get_runs (end_run c4St statusCompleted none 1).1 =
      Except.ok ([] ++ [finalizeRun (freshRun cRidA 0) statusCompleted none 1]) ∧
    ([] ++ [finalizeRun (freshRun cRidA 0) statusCompleted none 1]).getLast? =
      some (finalizeRun (freshRun cRidA 0) statusCompleted none 1) ∧
    (finalizeRun (freshRun cRidA 0) statusCompleted none 1).endTime = some 1 ∧
    (finalizeRun (freshRun cRidA 0) statusCompleted none 1).durationSeconds =
      some (1 - (freshRun cRidA 0).startTime) :=
  end_run_roundtrip c4St (freshRun cRidA 0) statusCompleted none 1 [] rfl rfl

/-- Claim C3: a run scope whose body keeps the run active and does not touch
the log file persists exactly one record when it exits.  If the body raised
an error, the record carries the failed status and the message of that error,
and the scope re-raises the original error; if the body completed, the record
carries the completed status. -/
theorem scoped_run_finalizes_once (st st2 : LoggerState) (r2 : Run)
    (newRunId : String) (startNow endNow : ℚ)
    (pipeline dataset configPath : Option String) (tags : List (String × String))
    (body : LoggerState → LoggerState × Option String) (exc : Option String)
    (hbody : body (start_run st newRunId startNow pipeline dataset configPath tags).1 =
      (st2, exc))
    (hrun : st2.currentRun = some r2)
    (hlog : st2.log = st.log) :
    (∀ msg, exc = some msg →
      experimentRunScope st newRunId startNow pipeline dataset configPath tags body endNow =
        (finishedState st2 st.log (finalizeRun r2 statusFailed (some msg) endNow),
         ScopedOutcome.raised msg) ∧
      (finalizeRun r2 statusFailed (some msg) endNow).status = statusFailed ∧
      (finalizeRun r2 statusFailed (some msg) endNow).error = some msg) ∧
    (exc = none →
      experimentRunScope st newRunId startNow pipeline dataset configPath tags body endNow =
        (finishedState st2 st.log (finalizeRun r2 statusCompleted none endNow),
         ScopedOutcome.ok) ∧
      (finalizeRun r2 statusCompleted none endNow).status = statusCompleted) := by
  constructor
  · intro msg hmsg
    subst hmsg
    refine ⟨?_, rfl, rfl⟩
    simp only [experimentRunScope, hbody]
    simp [end_run, hrun, hlog, finishedState]
  · intro hnone
    subst hnone
    refine ⟨?_, rfl⟩
    simp only [experimentRunScope, hbody]
    simp [end_run, hrun, hlog, finishedState]

/-- Witness for C3: a failing body and a completing body over a fresh
tracker, each persisting exactly one finalized record. -/
theorem scoped_run_finalizes_once_witness :
    experimentRunScope cEmptySt cRidA 0 none none none [] cFailBody 1 =
      (finishedState c1St1 cEmptySt.log (finalizeRun (freshRun cRidA 0) statusFailed (some cMsg) 1),
       ScopedOutcome.raised cMsg) ∧
    experimentRunScope cEmptySt cRidA 0 none none none [] cOkBody 1 =
      (finishedState c1St1 cEmptySt.log (finalizeRun (freshRun cRidA 0) statusCompleted none 1),
       ScopedOutcome.ok) :=
  ⟨((scoped_run_finalizes_once cEmptySt c1St1 (freshRun cRidA 0) cRidA 0 1
      none none none [] cFailBody (some cMsg) (by decide) (by decide) (by decide)).1
      cMsg rfl).1,
   ((scoped_run_finalizes_once cEmptySt c1St1 (freshRun cRidA 0) cRidA 0 1
      none none none [] cOkBody none (by decide) (by decide) (by decide)).2 rfl).1⟩

theorem log_metrics_step_absent (st : LoggerState) (r : Run) (k : String)
    (v : ℚ) (s : Int) (now : ℚ) (hact : st.currentRun = some r)
    (h : dictGet r.metrics k = none) :
    log_metrics st [(k, v)] (some s) now =
      (setRunMetrics st r (dictSet r.metrics k (MetricVal.series [⟨s, v, now⟩])), none) := by
  simp [log_metrics, hact, seriesLoop, appendSeriesEntry, h, setRunMetrics]

theorem log_metrics_step_series (st : LoggerState) (r : Run) (k : String)
    (v : ℚ) (s : Int) (now : ℚ) (l : List SeriesEntry)
    (hact : st.currentRun = some r)
    (h : dictGet r.metrics k = some (MetricVal.series l)) :
    log_metrics st [(k, v)] (some s) now =
      (setRunMetrics st r (dictSet r.metrics k (MetricVal.series (l ++ [⟨s, v, now⟩]))), none) := by
  simp [log_metrics, hact, seriesLoop, appendSeriesEntry, h, setRunMetrics]

theorem log_metrics_noStep_single (st : LoggerState) (r : Run) (k : String)
    (v now : ℚ) (hact : st.currentRun = some r) :
    log_metrics st [(k, v)] none now =
      (setRunMetrics st r (dictSet r.metrics k (MetricVal.num v)), none) := by
  simp [log_metrics, hact, dictUpdate, setRunMetrics]

theorem replayCalls_append (k : String) :
    ∀ (a b : List MetricCall) (st st1 : LoggerState),
      replayCalls k st a = (st1, none) →
      replayCalls k st (a ++ b) = replayCalls k st1 b := by
  intro a
  induction a with
  | nil =>
    intro b st st1 h
    simp only [replayCalls] at h
    cases h
    rfl
  | cons c rest ih =>
    intro b st st1 h
    simp only [replayCalls] at h ⊢
    cases hlm : log_metrics st [(k, c.value)] c.step c.time with
    | mk st2 e =>
      rw [hlm] at h
      cases e with
      | none => exact ih b st2 st1 h
      | some e2 => simp at h

theorem replay_series_calls (k : String) :
    ∀ (ws : List (Int × ℚ × ℚ)) (st : LoggerState) (r : Run) (acc : List SeriesEntry),
      st.currentRun = some r →
      dictGet r.metrics k = some (MetricVal.series acc) →
      ∃ st2 r2, replayCalls k st (ws.map fun t => ⟨t.2.1, some t.1, t.2.2⟩) = (st2, none) ∧
        st2.currentRun = some r2 ∧
        dictGet r2.metrics k =
          some (MetricVal.series (acc ++ ws.map fun t => ⟨t.1, t.2.1, t.2.2⟩)) := by
  intro ws
  induction ws with
  | nil =>
    intro st r acc hact h
    exact ⟨st, r, rfl, hact, by simpa using h⟩
  | cons w rest ih =>
    intro st r acc hact h
    have hstep := log_metrics_step_series st r k w.2.1 w.1 w.2.2 acc hact h
    have hget := dictGet_dictSet_self r.metrics k
      (MetricVal.series (acc ++ [⟨w.1, w.2.1, w.2.2⟩]))
    obtain ⟨st2, r2, h1, h2, h3⟩ := ih
      (setRunMetrics st r (dictSet r.metrics k (MetricVal.series (acc ++ [⟨w.1, w.2.1, w.2.2⟩]))))
      { r with metrics := dictSet r.metrics k (MetricVal.series (acc ++ [⟨w.1, w.2.1, w.2.2⟩])) }
      (acc ++ [⟨w.1, w.2.1, w.2.2⟩]) (by rfl) hget
    refine ⟨st2, r2, ?_, h2, ?_⟩
    · simp only [List.map_cons, replayCalls, hstep]
      exact h1
    · rw [h3]
      simp

theorem replay_fresh_calls (k : String) (ws : List (Int × ℚ × ℚ))
    (st : LoggerState) (r : Run) (hact : st.currentRun = some r)
    (h : dictGet r.metrics k = none) :
    ∃ st2 r2, replayCalls k st (ws.map fun t => ⟨t.2.1, some t.1, t.2.2⟩) = (st2, none) ∧
      st2.currentRun = some r2 ∧
      dictGet r2.metrics k =
        (match ws with
         | [] => none
         | _ :: _ => some (MetricVal.series (ws.map fun t => ⟨t.1, t.2.1, t.2.2⟩))) := by
  cases ws with
  | nil => exact ⟨st, r, rfl, hact, h⟩
  | cons w rest =>
    have hstep := log_metrics_step_absent st r k w.2.1 w.1 w.2.2 hact h
    have hget := dictGet_dictSet_self r.metrics k (MetricVal.series [⟨w.1, w.2.1, w.2.2⟩])
    obtain ⟨st2, r2, h1, h2, h3⟩ := replay_series_calls k rest
      (setRunMetrics st r (dictSet r.metrics k (MetricVal.series [⟨w.1, w.2.1, w.2.2⟩])))
      { r with metrics := dictSet r.metrics k (MetricVal.series [⟨w.1, w.2.1, w.2.2⟩]) }
      [⟨w.1, w.2.1, w.2.2⟩] (by rfl) hget
    refine ⟨st2, r2, ?_, h2, ?_⟩
    · simp only [List.map_cons, replayCalls, hstep]
      exact h1
    · rw [h3]
      simp

theorem replay_scalar_calls (k : String) :
    ∀ (ns : List (ℚ × ℚ)) (st : LoggerState) (r : Run), st.currentRun = some r →
      ∃ st2 r2, replayCalls k st (ns.map fun t => ⟨t.1, none, t.2⟩) = (st2, none) ∧
        st2.currentRun = some r2 ∧
        dictGet r2.metrics k =
          (match ns.getLast? with
           | some t => some (MetricVal.num t.1)
           | none => dictGet r.metrics k) := by
  intro ns
  induction ns with
  | nil =>
    intro st r hact
    exact ⟨st, r, rfl, hact, rfl⟩
  | cons t rest ih =>
    intro st r hact
    have hstep := log_metrics_noStep_single st r k t.1 t.2 hact
    obtain ⟨st2, r2, h1, h2, h3⟩ := ih
      (setRunMetrics st r (dictSet r.metrics k (MetricVal.num t.1)))
      { r with metrics := dictSet r.metrics k (MetricVal.num t.1) } (by rfl)
    refine ⟨st2, r2, ?_, h2, ?_⟩
    · simp only [List.map_cons, replayCalls, hstep]
      exact h1
    · rw [h3]
      cases rest with
      | nil => simp [dictGet_dictSet_self]
      | cons b l =>
        simp only [List.getLast?_cons_cons]
        cases hbl : (b :: l).getLast? with
        | some u => rfl
        | none => simp at hbl

/-- Claim C6 counterexample: the key already holds a scalar (logged without a
step) and log_metrics is then called for it with a step.  The claim says the
entry is appended to the series, creating it if absent; instead the append
call raises AttributeError and the run record still holds the old scalar. -/
theorem log_metrics_step_after_scalar_counterexample :
    dictGet c6Run.metrics cK = some (MetricVal.num 1) ∧
    c6St.currentRun = some c6Run ∧
    log_metrics c6St [(cK, 2)] (some 1) 3 = (c6St, some PyErr.attributeError) := by
  decide

/-- Claim C6 as amended: over any sequence of single-key log_metrics calls in
which no step-mode call follows a scalar-mode call for the key (a step-mode
call onto a key holding a scalar raises AttributeError instead of appending),
every call succeeds; the key then holds the scalar of the last step-free
call when there is one, and otherwise the series of all step-mode calls in
the order logged, each entry carrying the given step, value and the call
clock. -/
theorem log_metrics_mode_behaviour (st : LoggerState) (r : Run) (k : String)
    (ws : List (Int × ℚ × ℚ)) (ns : List (ℚ × ℚ))
    (hact : st.currentRun = some r)
    (hfresh : dictGet r.metrics k = none) :
    ∃ st2 r2, replayCalls k st (modeCalls ws ns) = (st2, none) ∧
      st2.currentRun = some r2 ∧
      dictGet r2.metrics k =
        (match ns.getLast?, ws with
         | some t, _ => some (MetricVal.num t.1)
         | none, [] => none
         | none, _ :: _ =>
           some (MetricVal.series (ws.map fun t => ⟨t.1, t.2.1, t.2.2⟩))) := by
  obtain ⟨st1, r1, h1, h2, h3⟩ := replay_fresh_calls k ws st r hact hfresh
  obtain ⟨st2, r2, h4, h5, h6⟩ := replay_scalar_calls k ns st1 r1 h2
  refine ⟨st2, r2, ?_, h5, ?_⟩
  · rw [modeCalls, replayCalls_append k _ _ st st1 h1]
    exact h4
  · rw [h6]
    cases hn : ns.getLast? with
    | some t => cases ws <;> rfl
    | none =>
      rw [h3]
      cases ws <;> rfl

/-- Witness for the amended C6: two step-mode calls followed by two
scalar-mode calls for the key; the final value is the scalar of the last
call. -/
theorem log_metrics_mode_behaviour_witness :
    ∃ st2 r2,
      replayCalls cK c6WSt (modeCalls [(1, 2, 3), (2, 4, 5)] [(6, 7), (8, 9)]) =
        (st2, none) ∧
      st2.currentRun = some r2 ∧
      dictGet r2.metrics cK =
        (match (([(6, 7), (8, 9)] : List (ℚ × ℚ))).getLast?,
               (([(1, 2, 3), (2, 4, 5)] : List (Int × ℚ × ℚ))) with
         | some t, _ => some (MetricVal.num t.1)
         | none, [] => none
         | none, _ :: _ =>
           some (MetricVal.series
             ((([(1, 2, 3), (2, 4, 5)] : List (Int × ℚ × ℚ))).map
               fun t => ⟨t.1, t.2.1, t.2.2⟩))) :=
  log_metrics_mode_behaviour c6WSt c6WRun cK [(1, 2, 3), (2, 4, 5)] [(6, 7), (8, 9)]
    (by decide) (by decide)

theorem keyNum_of_isNum (metric : String) (maximize : Bool) (r : Run)
    (h : isNumKey (getMetricValue metric maximize r) = true) :
    getMetricValue metric maximize r = KeyVal.num (keyNumOf metric maximize r) := by
  cases hgv : getMetricValue metric maximize r with
  | num x => simp [keyNumOf, hgv]
  | strv s => rw [hgv] at h; simp [isNumKey] at h

theorem keyNumOf_scalar (metric : String) (maximize : Bool) (r : Run) (q : ℚ)
    (h : dictGet r.metrics metric = some (MetricVal.num q)) :
    keyNumOf metric maximize r = xrFin q := by
  simp [keyNumOf, getMetricValue, h]

theorem keyNumOf_series (metric : String) (maximize : Bool) (r : Run)
    (l : List SeriesEntry) (e : SeriesEntry)
    (h : dictGet r.metrics metric = some (MetricVal.series l))
    (hl : l.getLast? = some e) :
    keyNumOf metric maximize r = xrFin e.value := by
  simp [keyNumOf, getMetricValue, h, hl]

theorem keyNumOf_missing (metric : String) (maximize : Bool) (r : Run)
    (h : dictGet r.metrics metric = none) :
    keyNumOf metric maximize r = (if maximize then xrNegInf else xrPosInf) := by
  cases maximize <;> simp [keyNumOf, getMetricValue, h]

theorem keyNumOf_fin_of_has (metric : String) (maximize : Bool) (r : Run)
    (h : hasMetricValue metric r = true) :
    ∃ q, keyNumOf metric maximize r = xrFin q := by
  unfold hasMetricValue at h
  cases hd : dictGet r.metrics metric with
  | none => rw [hd] at h; simp at h
  | some v =>
    cases v with
    | num q => exact ⟨q, keyNumOf_scalar metric maximize r q hd⟩
    | str s => rw [hd] at h; simp at h
    | series l =>
      rw [hd] at h
      simp only [Bool.not_eq_true'] at h
      have hne : l ≠ [] := by
        intro hl
        rw [hl] at h
        simp at h
      obtain ⟨e, he⟩ := Option.isSome_iff_exists.1 (List.getLast?_isSome.2 hne)
      exact ⟨e.value, keyNumOf_series metric maximize r l e hd he⟩

theorem keyNumOf_inf_of_not_has (metric : String) (maximize : Bool) (r : Run)
    (hnum : isNumKey (getMetricValue metric maximize r) = true)
    (h : hasMetricValue metric r = false) :
    keyNumOf metric maximize r = (if maximize then xrNegInf else xrPosInf) := by
  unfold hasMetricValue at h
  cases hd : dictGet r.metrics metric with
  | none => exact keyNumOf_missing metric maximize r hd
  | some v =>
    cases v with
    | num q => rw [hd] at h; simp at h
    | str s => simp [getMetricValue, hd, isNumKey] at hnum
    | series l =>
      rw [hd] at h
      simp only [Bool.not_eq_false'] at h
      have hl : l = [] := List.isEmpty_iff.1 h
      subst hl
      cases maximize <;> simp [keyNumOf, getMetricValue, hd]

theorem maxByLoop_eq_pickMax (f : Run → KeyVal) (g : Run → XRat) :
    ∀ (l : List Run) (x : Run), f x = KeyVal.num (g x) →
      (∀ r ∈ l, f r = KeyVal.num (g r)) →
      maxByLoop f x l = Except.ok (pickMax g x l) := by
  intro l
  induction l with
  | nil => intro x _ _; rfl
  | cons r rest ih =>
    intro x hx hl
    have hr : f r = KeyVal.num (g r) := hl r (List.mem_cons_self _ _)
    have hg : keyGt (f r) (f x) = Except.ok (decide (g x < g r)) := by
      rw [hr, hx]; rfl
    simp only [maxByLoop, hg, pickMax]
    by_cases hc : g x < g r
    · rw [if_pos (by simpa using hc), if_pos hc]
      exact ih r hr fun r2 h2 => hl r2 (List.mem_cons_of_mem _ h2)
    · rw [if_neg (by simpa using hc), if_neg hc]
      exact ih x hx fun r2 h2 => hl r2 (List.mem_cons_of_mem _ h2)

theorem minByLoop_eq_pickMin (f : Run → KeyVal) (g : Run → XRat) :
    ∀ (l : List Run) (x : Run), f x = KeyVal.num (g x) →
      (∀ r ∈ l, f r = KeyVal.num (g r)) →
      minByLoop f x l = Except.ok (pickMin g x l) := by
  intro l
  induction l with
  | nil => intro x _ _; rfl
  | cons r rest ih =>
    intro x hx hl
    have hr : f r = KeyVal.num (g r) := hl r (List.mem_cons_self _ _)
    have hg : keyLt (f r) (f x) = Except.ok (decide (g r < g x)) := by
      rw [hr, hx]; rfl
    simp only [minByLoop, hg, pickMin]
    by_cases hc : g r < g x
    · rw [if_pos (by simpa using hc), if_pos hc]
      exact ih r hr fun r2 h2 => hl r2 (List.mem_cons_of_mem _ h2)
    · rw [if_neg (by simpa using hc), if_neg hc]
      exact ih x hx fun r2 h2 => hl r2 (List.mem_cons_of_mem _ h2)

theorem foldl_argAux_pickMax (g : Run → XRat) :
    ∀ (l : List Run) (x : Run),
      List.foldl (List.argAux fun b c => g c < g b) (some x) l = some (pickMax g x l) := by
  intro l
  induction l with
  | nil => intro x; rfl
  | cons r rest ih =>
    intro x
    have ha : List.argAux (fun b c : Run => g c < g b) (some x) r =
        some (if g x < g r then r else x) := by
      by_cases hc : g x < g r <;> simp [List.argAux, hc]
    simp only [List.foldl_cons, ha, pickMax]
    exact ih (if g x < g r then r else x)

theorem pickMax_argmax (g : Run → XRat) (l : List Run) (x : Run) :
    List.argmax g (x :: l) = some (pickMax g x l) := by
  have h0 : List.argAux (fun b c : Run => g c < g b) none x = some x := rfl
  simp only [List.argmax, List.foldl_cons, h0]
  exact foldl_argAux_pickMax g l x

theorem foldl_argAux_pickMin (g : Run → XRat) :
    ∀ (l : List Run) (x : Run),
      List.foldl (List.argAux fun b c => g b < g c) (some x) l = some (pickMin g x l) := by
  intro l
  induction l with
  | nil => intro x; rfl
  | cons r rest ih =>
    intro x
    have ha : List.argAux (fun b c : Run => g b < g c) (some x) r =
        some (if g r < g x then r else x) := by
      by_cases hc : g r < g x <;> simp [List.argAux, hc]
    simp only [List.foldl_cons, ha, pickMin]
    exact ih (if g r < g x then r else x)

theorem pickMin_argmin (g : Run → XRat) (l : List Run) (x : Run) :
    List.argmin g (x :: l) = some (pickMin g x l) := by
  have h0 : List.argAux (fun b c : Run => g b < g c) none x = some x := rfl
  simp only [List.argmin, List.foldl_cons, h0]
  exact foldl_argAux_pickMin g l x

/-- Claim C5: over a non-empty parsed log whose key values for the metric are
all numbers (a scalar, the last entry of a series, or a substituted
infinity), get_best_run returns a run of the log; the key of each run is its
scalar value, or the last recorded value of its series, or minus-infinity
(maximizing) respectively plus-infinity (minimizing) when the metric is
missing; the returned run carries the extremal key, ties resolving to the
first such run in file order; and a run missing the metric is never selected
over a run that has a value for it. -/
theorem get_best_run_extremal (st : LoggerState) (metric : String)
    (maximize : Bool) (runs : List Run) (hr : get_runs st = Except.ok runs)
    (hne : runs ≠ [])
    (hnum : ∀ r ∈ runs, isNumKey (getMetricValue metric maximize r) = true) :
    ∃ best, get_best_run st metric maximize = Except.ok (some best) ∧
      best ∈ runs ∧
      (∀ r ∈ runs, ∀ q, dictGet r.metrics metric = some (MetricVal.num q) →
        keyNumOf metric maximize r = xrFin q) ∧
      (∀ r ∈ runs, ∀ l e, dictGet r.metrics metric = some (MetricVal.series l) →
        l.getLast? = some e → keyNumOf metric maximize r = xrFin e.value) ∧
      (∀ r ∈ runs, dictGet r.metrics metric = none →
        keyNumOf metric maximize r = (if maximize then xrNegInf else xrPosInf)) ∧
      (maximize = true →
        (∀ r ∈ runs, keyNumOf metric maximize r ≤ keyNumOf metric maximize best) ∧
        (∀ r ∈ runs, keyNumOf metric maximize best ≤ keyNumOf metric maximize r →
          runs.indexOf best ≤ runs.indexOf r)) ∧
      (maximize = false →
        (∀ r ∈ runs, keyNumOf metric maximize best ≤ keyNumOf metric maximize r) ∧
        (∀ r ∈ runs, keyNumOf metric maximize r ≤ keyNumOf metric maximize best →
          runs.indexOf best ≤ runs.indexOf r)) ∧
      ((∃ r ∈ runs, hasMetricValue metric r = true) →
        hasMetricValue metric best = true) := by
  obtain ⟨x, xs, rfl⟩ : ∃ x xs, runs = x :: xs := by
    cases runs with
    | nil => exact absurd rfl hne
    | cons a l => exact ⟨a, l, rfl⟩
  have hf : ∀ r ∈ x :: xs,
      getMetricValue metric maximize r = KeyVal.num (keyNumOf metric maximize r) :=
    fun r hr2 => keyNum_of_isNum metric maximize r (hnum r hr2)
  cases maximize with
  | true =>
    have hloop := maxByLoop_eq_pickMax (getMetricValue metric true)
      (keyNumOf metric true) xs x (hf x (List.mem_cons_self _ _))
      (fun r h2 => hf r (List.mem_cons_of_mem _ h2))
    have harg : List.argmax (keyNumOf metric true) (x :: xs) =
        some (pickMax (keyNumOf metric true) x xs) :=
      pickMax_argmax (keyNumOf metric true) xs x
    have hmemarg : pickMax (keyNumOf metric true) x xs ∈
        List.argmax (keyNumOf metric true) (x :: xs) := by
      rw [harg]; rfl
    have hmem : pickMax (keyNumOf metric true) x xs ∈ x :: xs :=
      List.argmax_mem hmemarg
    have hmax : ∀ r ∈ x :: xs, keyNumOf metric true r ≤
        keyNumOf metric true (pickMax (keyNumOf metric true) x xs) :=
      fun r h2 => List.le_of_mem_argmax h2 hmemarg
    refine ⟨pickMax (keyNumOf metric true) x xs, ?_, hmem,
      fun r _ q h => keyNumOf_scalar metric true r q h,
      fun r _ l e h hl => keyNumOf_series metric true r l e h hl,
      fun r _ h => keyNumOf_missing metric true r h,
      fun _ => ⟨hmax, fun r h2 hle => List.index_of_argmax hmemarg h2 hle⟩,
      fun hfalse => Bool.noConfusion hfalse,
      ?_⟩
    · simp [get_best_run, hr, hloop]
    · rintro ⟨r0, hr0, hhas⟩
      cases hbm : hasMetricValue metric (pickMax (keyNumOf metric true) x xs) with
      | true => rfl
      | false =>
        exfalso
        obtain ⟨q, hq⟩ := keyNumOf_fin_of_has metric true r0 hhas
        have hbot := keyNumOf_inf_of_not_has metric true _
          (hnum _ hmem) hbm
        have hle := hmax r0 hr0
        rw [hq, hbot] at hle
        simp only [if_pos rfl] at hle
        exact WithBot.coe_ne_bot (le_bot_iff.1 hle)
  | false =>
    have hloop := minByLoop_eq_pickMin (getMetricValue metric false)
      (keyNumOf metric false) xs x (hf x (List.mem_cons_self _ _))
      (fun r h2 => hf r (List.mem_cons_of_mem _ h2))
    have harg : List.argmin (keyNumOf metric false) (x :: xs) =
        some (pickMin (keyNumOf metric false) x xs) :=
      pickMin_argmin (keyNumOf metric false) xs x
    have hmemarg : pickMin (keyNumOf metric false) x xs ∈
        List.argmin (keyNumOf metric false) (x :: xs) := by
      rw [harg]; rfl
    have hmem : pickMin (keyNumOf metric false) x xs ∈ x :: xs :=
      List.argmin_mem hmemarg
    have hmin : ∀ r ∈ x :: xs,
        keyNumOf metric false (pickMin (keyNumOf metric false) x xs) ≤
          keyNumOf metric false r :=
      fun r h2 => List.le_of_mem_argmin h2 hmemarg
    refine ⟨pickMin (keyNumOf metric false) x xs, ?_, hmem,
      fun r _ q h => keyNumOf_scalar metric false r q h,
      fun r _ l e h hl => keyNumOf_series metric false r l e h hl,
      fun r _ h => keyNumOf_missing metric false r h,
      fun htrue => Bool.noConfusion htrue,
      fun _ => ⟨hmin, fun r h2 hle => List.index_of_argmin hmemarg h2 hle⟩,
      ?_⟩
    · simp [get_best_run, hr, hloop]
    · rintro ⟨r0, hr0, hhas⟩
      cases hbm : hasMetricValue metric (pickMin (keyNumOf metric false) x xs) with
      | true => rfl
      | false =>
        exfalso
        obtain ⟨q, hq⟩ := keyNumOf_fin_of_has metric false r0 hhas
        have htop := keyNumOf_inf_of_not_has metric false _
          (hnum _ hmem) hbm
        have hle := hmin r0 hr0
        rw [hq, htop] at hle
        simp only [if_neg Bool.false_ne_true] at hle
        unfold xrPosInf xrFin at hle
        have h2 : (⊤ : WithTop ℚ) ≤ ((q : ℚ) : WithTop ℚ) := WithBot.coe_le_coe.1 hle
        exact WithTop.coe_ne_top (top_le_iff.1 h2)

/-- Witness for C5 at the spec example shape: three completed runs with snr
values 10, 25, 18 in that file order, maximizing. -/
theorem get_best_run_extremal_witness :
    ∃ best, get_best_run c5St cSnr true = Except.ok (some best) ∧
      best ∈ [c5RunA, c5RunB, c5RunC] ∧
      (∀ r ∈ [c5RunA, c5RunB, c5RunC], ∀ q,
        dictGet r.metrics cSnr = some (MetricVal.num q) →
        keyNumOf cSnr true r = xrFin q) ∧
      (∀ r ∈ [c5RunA, c5RunB, c5RunC], ∀ l e,
        dictGet r.metrics cSnr = some (MetricVal.series l) →
        l.getLast? = some e → keyNumOf cSnr true r = xrFin e.value) ∧
      (∀ r ∈ [c5RunA, c5RunB, c5RunC], dictGet r.metrics cSnr = none →
        keyNumOf cSnr true r = (if true then xrNegInf else xrPosInf)) ∧
      (true = true →
        (∀ r ∈ [c5RunA, c5RunB, c5RunC],
          keyNumOf cSnr true r ≤ keyNumOf cSnr true best) ∧
        (∀ r ∈ [c5RunA, c5RunB, c5RunC],
          keyNumOf cSnr true best ≤ keyNumOf cSnr true r →
          [c5RunA, c5RunB, c5RunC].indexOf best ≤ [c5RunA, c5RunB, c5RunC].indexOf r)) ∧
      (true = false →
        (∀ r ∈ [c5RunA, c5RunB, c5RunC],
          keyNumOf cSnr true best ≤ keyNumOf cSnr true r) ∧
        (∀ r ∈ [c5RunA, c5RunB, c5RunC],
          keyNumOf cSnr true r ≤ keyNumOf cSnr true best →
          [c5RunA, c5RunB, c5RunC].indexOf best ≤ [c5RunA, c5RunB, c5RunC].indexOf r)) ∧
      ((∃ r ∈ [c5RunA, c5RunB, c5RunC], hasMetricValue cSnr r = true) →
        hasMetricValue cSnr best = true) :=
  get_best_run_extremal c5St cSnr true [c5RunA, c5RunB, c5RunC]
    (by decide) (by decide) (by decide)

theorem computeStats_cons (x : ℚ) (xs : List ℚ) :
    computeStats (x :: xs) = some (statsSpec x xs) := rfl

theorem dictGet_pushValue (acc : List (String × List ℚ)) (k2 k : String) (q : ℚ) :
    (dictGet (pushValue acc k2 q) k).getD [] =
      (dictGet acc k).getD [] ++ (if k2 = k then [q] else []) := by
  induction acc with
  | nil =>
    by_cases h : k2 = k <;> simp [pushValue, dictGet, h]
  | cons p rest ih =>
    obtain ⟨a, b⟩ := p
    simp only [pushValue]
    by_cases h1 : a = k2
    · simp only [if_pos h1]
      by_cases h2 : a = k
      · have hk : k2 = k := h1.symm.trans h2
        simp [dictGet, h2, hk]
      · have hk : ¬(k2 = k) := fun he => h2 (h1.trans he)
        simp [dictGet, h2, hk]
    · simp only [if_neg h1]
      by_cases h2 : a = k
      · have hk : ¬(k2 = k) := fun he => h1 (h2.trans he.symm)
        simp [dictGet, h2, hk]
      · simp [dictGet, h2, ih]

theorem dictGet_metricsFold (ms : List (String × MetricVal)) (k : String) :
    ∀ acc,
      (dictGet (ms.foldl
        (fun acc2 kv =>
          match kv.2 with
          | MetricVal.num q => pushValue acc2 kv.1 q
          | _ => acc2) acc) k).getD [] =
      (dictGet acc k).getD [] ++ ms.filterMap (fun kv =>
        if kv.1 = k then
          match kv.2 with
          | MetricVal.num q => some q
          | _ => none
        else none) := by
  induction ms with
  | nil => intro acc; simp
  | cons kv rest ih =>
    intro acc
    obtain ⟨k2, v⟩ := kv
    cases v with
    | num q =>
      by_cases hk : k2 = k
      · subst hk
        simp only [List.foldl_cons, List.filterMap_cons]
        rw [ih (pushValue acc k2 q), dictGet_pushValue]
        simp [List.append_assoc]
      · simp only [List.foldl_cons, List.filterMap_cons]
        rw [ih (pushValue acc k2 q), dictGet_pushValue]
        simp [hk, List.append_assoc]
    | str s =>
      by_cases hk : k2 = k <;>
        simp [List.foldl_cons, List.filterMap_cons, hk, ih acc]
    | series l =>
      by_cases hk : k2 = k <;>
        simp [List.foldl_cons, List.filterMap_cons, hk, ih acc]

theorem dictGet_collectFold (rs : List Run) (k : String) :
    ∀ acc,
      (dictGet (rs.foldl
        (fun acc r =>
          r.metrics.foldl
            (fun acc2 kv =>
              match kv.2 with
              | MetricVal.num q => pushValue acc2 kv.1 q
              | _ => acc2) acc) acc) k).getD [] =
      (dictGet acc k).getD [] ++ rs.flatMap (fun r => numericValsOf r k) := by
  induction rs with
  | nil => intro acc; simp
  | cons r rest ih =>
    intro acc
    simp only [List.foldl_cons, List.flatMap_cons]
    rw [ih, dictGet_metricsFold r.metrics k acc]
    simp [numericValsOf, List.append_assoc]

theorem collect_vals (cs : List Run) (k : String) :
    (dictGet (collectNumeric cs) k).getD [] =
      cs.flatMap (fun r => numericValsOf r k) := by
  have h := dictGet_collectFold cs k []
  simpa [collectNumeric, dictGet] using h

theorem pushValue_nonempty (acc : List (String × List ℚ)) (k : String) (q : ℚ)
    (h : ∀ p ∈ acc, p.2 ≠ []) : ∀ p ∈ pushValue acc k q, p.2 ≠ [] := by
  induction acc with
  | nil =>
    intro p hp
    simp only [pushValue, List.mem_singleton] at hp
    subst hp
    simp
  | cons p0 rest ih =>
    intro p hp
    by_cases h1 : p0.1 = k
    · simp only [pushValue, if_pos h1] at hp
      rcases List.mem_cons.1 hp with h2 | h2
      · subst h2; simp
      · exact h p (List.mem_cons_of_mem _ h2)
    · simp only [pushValue, if_neg h1] at hp
      rcases List.mem_cons.1 hp with h2 | h2
      · rw [h2]; exact h p0 (List.mem_cons_self _ _)
      · exact ih (fun p2 hp2 => h p2 (List.mem_cons_of_mem _ hp2)) p h2

theorem metricsFold_nonempty (ms : List (String × MetricVal)) :
    ∀ acc, (∀ p ∈ acc, p.2 ≠ []) →
      ∀ p ∈ ms.foldl
        (fun acc2 kv =>
          match kv.2 with
          | MetricVal.num q => pushValue acc2 kv.1 q
          | _ => acc2) acc, p.2 ≠ [] := by
  induction ms with
  | nil => intro acc h; exact h
  | cons kv rest ih =>
    intro acc h
    obtain ⟨k2, v⟩ := kv
    cases v with
    | num q =>
      simpa using ih (pushValue acc k2 q) (pushValue_nonempty acc k2 q h)
    | str s => simpa using ih acc h
    | series l => simpa using ih acc h

theorem collect_nonempty (cs : List Run) : ∀ p ∈ collectNumeric cs, p.2 ≠ [] := by
  rw [collectNumeric]
  generalize hacc : ([] : List (String × List ℚ)) = acc
  have hbase : ∀ p ∈ acc, p.2 ≠ [] := by
    rw [← hacc]
    intro p hp
    simp at hp
  clear hacc
  induction cs generalizing acc with
  | nil => exact hbase
  | cons r rest ih =>
    simp only [List.foldl_cons]
    exact ih _ (metricsFold_nonempty r.metrics acc hbase)

theorem dictGet_mem {α : Type} (d : List (String × α)) (k : String) (v : α)
    (h : dictGet d k = some v) : (k, v) ∈ d := by
  induction d with
  | nil => simp [dictGet] at h
  | cons p rest ih =>
    by_cases h1 : p.1 = k
    · simp only [dictGet, if_pos h1] at h
      have hv : v = p.2 := by injection h with h2; exact h2.symm
      have hp : (k, v) = p := by
        cases p with
        | mk a b =>
          simp only at h1
          simp [h1.symm, hv]
      rw [hp]
      exact List.mem_cons_self _ _
    · simp only [dictGet, if_neg h1] at h
      exact List.mem_cons_of_mem _ (ih h)

theorem dictGet_collect_eq (cs : List Run) (k : String) :
    dictGet (collectNumeric cs) k =
      (match cs.flatMap (fun r => numericValsOf r k) with
       | [] => none
       | x :: xs => some (x :: xs)) := by
  cases hd : dictGet (collectNumeric cs) k with
  | none =>
    have hv := collect_vals cs k
    rw [hd] at hv
    simp only [Option.getD_none] at hv
    rw [← hv]
  | some vals =>
    have hv := collect_vals cs k
    rw [hd] at hv
    simp only [Option.getD_some] at hv
    have hne : vals ≠ [] :=
      collect_nonempty cs (k, vals) (dictGet_mem (collectNumeric cs) k vals hd)
    rw [← hv]
    cases vals with
    | nil => exact absurd rfl hne
    | cons x xs => rfl

theorem dictGet_metricStatsOf (mv : List (String × List ℚ)) (k : String)
    (hne : ∀ p ∈ mv, p.2 ≠ []) :
    dictGet (metricStatsOf mv) k = (dictGet mv k).bind computeStats := by
  induction mv with
  | nil => rfl
  | cons p rest ih =>
    have hp : p.2 ≠ [] := hne p (List.mem_cons_self _ _)
    obtain ⟨x, xs, hx⟩ : ∃ x xs, p.2 = x :: xs := by
      cases hc : p.2 with
      | nil => exact absurd hc hp
      | cons a l => exact ⟨a, l, rfl⟩
    have hcons : metricStatsOf (p :: rest) =
        (p.1, statsSpec x xs) :: metricStatsOf rest := by
      simp [metricStatsOf, List.filterMap_cons, hx, computeStats_cons]
    by_cases h1 : p.1 = k
    · rw [hcons]
      simp only [dictGet, if_pos h1]
      simp [hx, computeStats_cons]
    · rw [hcons]
      simp only [dictGet, if_neg h1]
      exact ih fun p2 hp2 => hne p2 (List.mem_cons_of_mem _ hp2)

/-- Claim C7: get_summary reports the total run count and the counts of
completed and failed runs; its per-key statistics are exactly the
mean, min, max and count of the plain numeric values of that key across
completed runs only, in scan order, so values from failed (or otherwise
non-completed) runs, time series, and non-numeric scalars never contribute,
and a key with no such value has no entry; on an empty or missing log it
returns zeroed counts and no metric summary. -/
theorem get_summary_stats (st : LoggerState) (runs : List Run)
    (hr : get_runs st = Except.ok runs) :
    ∃ s, get_summary st = Except.ok s ∧
      s.totalRuns = runs.length ∧
      s.completed = (runs.filter (fun r => r.status = statusCompleted)).length ∧
      s.failed = (runs.filter (fun r => r.status = statusFailed)).length ∧
      (runs = [] → s.totalRuns = 0 ∧ s.completed = 0 ∧ s.failed = 0 ∧
        s.metricSummary = none ∧ s.firstRun = none ∧ s.lastRun = none) ∧
      (runs ≠ [] → ∃ ms, s.metricSummary = some ms ∧
        (∀ k, dictGet ms k =
          (match specVals runs k with
           | [] => none
           | x :: xs => some (statsSpec x xs))) ∧
        s.firstRun = runs.head?.map Run.startTime ∧
        s.lastRun = runs.getLast?.map Run.startTime) := by
  cases runs with
  | nil =>
    refine ⟨⟨st.experimentId, 0, 0, 0, none, none, none⟩, ?_, rfl, rfl, rfl,
      fun _ => ⟨rfl, rfl, rfl, rfl, rfl, rfl⟩, fun h => absurd rfl h⟩
    simp [get_summary, hr]
  | cons a l =>
    refine ⟨⟨st.experimentId, (a :: l).length,
      ((a :: l).filter (fun r => r.status = statusCompleted)).length,
      ((a :: l).filter (fun r => r.status = statusFailed)).length,
      some (metricStatsOf (collectNumeric
        ((a :: l).filter (fun r => r.status = statusCompleted)))),
      (a :: l).head?.map Run.startTime,
      (a :: l).getLast?.map Run.startTime⟩, ?_, rfl, rfl, rfl,
      fun he => absurd he (List.cons_ne_nil a l),
      fun _ => ⟨metricStatsOf (collectNumeric
        ((a :: l).filter (fun r => r.status = statusCompleted))), rfl, ?_, rfl, rfl⟩⟩
    · simp [get_summary, hr]
    · intro k
      rw [dictGet_metricStatsOf _ k (collect_nonempty _), dictGet_collect_eq]
      rw [specVals]
      cases hfm : ((a :: l).filter
          (fun r => r.status = statusCompleted)).flatMap
            (fun r => numericValsOf r k) with
      | nil => rfl
      | cons x xs => rfl

/-- Witness for C7 at the spec example shape: two completed runs with mse
values 1 and 3 and one failed run with mse 100 that must not contribute. -/
theorem get_summary_stats_witness :
    ∃ s, get_summary c7St = Except.ok s ∧
      s.totalRuns = [c7Run1, c7Run2, c7Run3].length ∧
      s.completed =
        ([c7Run1, c7Run2, c7Run3].filter (fun r => r.status = statusCompleted)).length ∧
      s.failed =
        ([c7Run1, c7Run2, c7Run3].filter (fun r => r.status = statusFailed)).length ∧
      ([c7Run1, c7Run2, c7Run3] = [] → s.totalRuns = 0 ∧ s.completed = 0 ∧
        s.failed = 0 ∧ s.metricSummary = none ∧ s.firstRun = none ∧ s.lastRun = none) ∧
      ([c7Run1, c7Run2, c7Run3] ≠ [] → ∃ ms, s.metricSummary = some ms ∧
        (∀ k, dictGet ms k =
          (match specVals [c7Run1, c7Run2, c7Run3] k with
           | [] => none
           | x :: xs => some (statsSpec x xs))) ∧
        s.firstRun = [c7Run1, c7Run2, c7Run3].head?.map Run.startTime ∧
        s.lastRun = [c7Run1, c7Run2, c7Run3].getLast?.map Run.startTime) :=
  get_summary_stats c7St [c7Run1, c7Run2, c7Run3] (by decide)
